import Mathlib

/-
Verification of the FIFO capital-gains engine in `fifo_ct.py`.

The embedding models the core of `fifo_ct` (the part after CSV reading and
value cleanup, i.e. source lines 103-183): the chronological sort, the
optional single-asset filter, the FIFO matching loop with its 1e-12 epsilon,
fee and counter-asset linkage by trade id, the 2-decimal rounding of the
emitted record fields, and the per (asset, counter-class) summary.

Monetary values and quantities are modelled as exact rationals (`ℚ`); the
Python floats of the source are idealised to exact arithmetic, with the
source's epsilon `1e-12` kept as the rational `1 / 10^12`.  Python's
`round(x, 2)` is modelled as round-half-to-even on the exact rational.
Strings are modelled structurally (character lists) so that all definitions
evaluate inside the kernel.
-/

namespace FifoCT

/-- Lower-case a string character by character (model of Python `str.lower`
as used by the case-insensitive regexes `re.I`). -/
def lowerStr (s : String) : String := ⟨s.data.map Char.toLower⟩

/-- Upper-case a string character by character (model of Python `str.upper`
applied to currency tickers). -/
def upperStr (s : String) : String := ⟨s.data.map Char.toUpper⟩

/-- Boolean test that the first character list is an initial segment of the
second. -/
def prefixChars : List Char → List Char → Bool
  | [], _ => true
  | _ :: _, [] => false
  | a :: as, b :: bs => a == b && prefixChars as bs

/-- Model of `re.match(pat, s, re.I)` for a plain lower-case literal pattern:
the lowered string starts with the pattern. -/
def matchStart (pat s : String) : Bool := prefixChars pat.data (lowerStr s).data

/-- Source `es_compra`: the label starts (case-insensitively) with
"compra" or "buy". -/
def es_compra (s : String) : Bool := matchStart "compra" s || matchStart "buy" s

/-- Source `es_venta`: the label starts (case-insensitively) with
"venta" or "sell". -/
def es_venta (s : String) : Bool := matchStart "venta" s || matchStart "sell" s

/-- Source `es_fee`: the label starts (case-insensitively) with
"comisi" or "fee". -/
def es_fee (s : String) : Bool := matchStart "comisi" s || matchStart "fee" s

/-- One ledger row after ingestion and cleanup (source columns
`date, tipo, amount, cur, eur, trade_id`).  `date` is an abstract sortable
timestamp. -/
structure Row where
  date : ℤ
  tipo : String
  amount : ℚ
  cur : String
  eur : ℚ
  trade_id : String
deriving DecidableEq

/-- An inventory lot `[qty, coste€]` of the source (`inventario` entries). -/
abbrev Lot := ℚ × ℚ

/-- The source's floating-point tolerance `1e-12`. -/
def eps : ℚ := 1 / 10 ^ 12

/-- The source's FIFO consumption loop (`while salida > 1e-12 and
inventario[cur]: ...`), returning the matched cost (`coste_fifo`) and the
remaining lot queue.  A front lot with `lot_qty <= salida + 1e-12` is
consumed wholly; otherwise the fraction `salida / lot_qty` of its quantity
and cost is consumed and the reduced lot stays at the front. -/
def consume (salida : ℚ) : List Lot → ℚ × List Lot
  | [] => (0, [])
  | (lot_qty, lot_coste) :: rest =>
    if eps < salida then
      if lot_qty ≤ salida + eps then
        let r := consume (salida - lot_qty) rest
        (lot_coste + r.1, r.2)
      else
        (lot_coste * (salida / lot_qty),
          (lot_qty - salida, lot_coste * (1 - salida / lot_qty)) :: rest)
    else (0, (lot_qty, lot_coste) :: rest)

/-- Round a rational to the nearest integer, ties to even (model of Python
`round` applied to a scaled value). -/
def roundHalfEven (q : ℚ) : ℤ :=
  if q - q.floor < 1 / 2 then q.floor
  else if (1 : ℚ) / 2 < q - q.floor then q.floor + 1
  else if q.floor % 2 = 0 then q.floor else q.floor + 1

/-- Model of Python `round(x, 2)`: round to two decimal places. -/
def round2 (q : ℚ) : ℚ := (roundHalfEven (q * 100) : ℚ) / 100

/-- Source lines 129-131: sum of absolute `eur` values over the rows of the
processed frame `df` that share the trade id and whose label classifies as
fee. -/
def fees_for (df : List Row) (tid : String) : ℚ :=
  ((df.filter (fun r => r.trade_id == tid && es_fee r.tipo)).map (fun r => |r.eur|)).sum

/-- Source lines 147-154: the counter-class key is `"F"` when `"EUR"`
appears among the (upper-cased) currencies of the rows sharing the trade id,
else `"N"`. -/
def clave_for (df : List Row) (tid : String) : String :=
  if (df.filter (fun r => r.trade_id == tid)).any (fun r => upperStr r.cur == "EUR")
  then "F" else "N"

/-- One output detail row (the dict appended to `filas`, source lines
156-167). -/
structure Fila where
  fecha : ℤ
  cripto : String
  qty : ℚ
  valor_transm : ℚ
  coste_fifo : ℚ
  gastos : ℚ
  ganancia : ℚ
  clave : String
deriving DecidableEq

/-- Engine state: the per-ticker inventory (`inventario`, a dict of lot
lists defaulting to `[]`) and the accumulated detail rows (`filas`). -/
structure St where
  inventario : String → List Lot
  filas : List Fila

/-- Point update of the inventory map at one ticker. -/
def updInv (inv : String → List Lot) (c : String) (l : List Lot) : String → List Lot :=
  fun c2 => if c2 = c then l else inv c2

/-- One iteration of the source's main loop (lines 113-167) on one row:
skip ignored tickers; on a purchase append a lot; on a sale consume FIFO,
look up fees and counter-class over the processed frame `df`, and append a
detail row with its monetary fields rounded to 2 decimals; otherwise no
state change. -/
def step (df : List Row) (ignorar : List String) (st : St) (row : Row) : St :=
  let cur := upperStr row.cur
  if cur ∈ ignorar then st
  else if es_compra row.tipo then
    { st with inventario := updInv st.inventario cur (st.inventario cur ++ [(row.amount, row.eur)]) }
  else if es_venta row.tipo then
    let salida := -row.amount
    let valor_transm := -row.eur
    let fee_eur := fees_for df row.trade_id
    let res := consume salida (st.inventario cur)
    { inventario := updInv st.inventario cur res.2,
      filas := st.filas ++ [{
        fecha := row.date,
        cripto := cur,
        qty := -row.amount,
        valor_transm := round2 valor_transm,
        coste_fifo := round2 res.1,
        gastos := round2 fee_eur,
        ganancia := round2 (valor_transm - res.1 - fee_eur),
        clave := clave_for df row.trade_id }] }
  else st

/-- Initial engine state: empty inventory, no detail rows. -/
def initSt : St := ⟨fun _ => [], []⟩

/-- Fold the loop body over a row sequence, with `df` the frame used for
fee / counter-class lookups. -/
def fifoLoop (df : List Row) (ignorar : List String) (rows : List Row) : St :=
  rows.foldl (step df ignorar) initSt

/-- Source lines 106-107: the optional single-asset filter keeps only rows
whose upper-cased ticker equals the chosen one. -/
def procFrame (solo : Option String) (rows : List Row) : List Row :=
  match solo with
  | none => rows
  | some c => rows.filter (fun r => upperStr r.cur == upperStr c)

/-- The engine without the initial sort: apply the optional single-asset
filter, then run the loop over the filtered frame, which is also the frame
used for fee / counter-class lookups. -/
def fifo_core (rows : List Row) (ignorar : List String) (solo : Option String) : St :=
  fifoLoop (procFrame solo rows) ignorar (procFrame solo rows)

/-- Comparison key of the sort at source line 103 (`sort_values("date")`). -/
def dateLe (a b : Row) : Prop := a.date ≤ b.date

instance : DecidableRel dateLe := fun a b => inferInstanceAs (Decidable (a.date ≤ b.date))

/-- The full engine `fifo_ct` from the cleaned ledger on: sort ascending by
date (line 103), filter (lines 106-107), then the FIFO loop (lines
110-167). -/
def fifo_ct (rows : List Row) (ignorar : List String) (solo : Option String) : St :=
  fifo_core (List.insertionSort dateLe rows) ignorar solo

/-- Total quantity held in a lot list. -/
def sumQty (l : List Lot) : ℚ := (l.map Prod.fst).sum

/-- Total cost basis held in a lot list. -/
def sumCost (l : List Lot) : ℚ := (l.map Prod.snd).sum

/-- Sum of the recorded costs of the acquisition rows the engine processes
for asset `A` (purchase label, ticker `A`, not in the ignore set). -/
def acquiredCost (ignorar : List String) (A : String) : List Row → ℚ
  | [] => 0
  | r :: rest =>
    (if upperStr r.cur ∉ ignorar ∧ es_compra r.tipo = true ∧ upperStr r.cur = A
      then r.eur else 0) + acquiredCost ignorar A rest

/-- The run's total unrounded matched cost basis for asset `A`: replay the
engine states with `step` and sum the `coste_fifo` value (`(consume ...).1`)
of exactly the rows on which `step` takes its sale branch for `A`. -/
def rawMatched (df : List Row) (ignorar : List String) (A : String) :
    List Row → St → ℚ
  | [], _ => 0
  | row :: rest, st =>
    (if upperStr row.cur ∉ ignorar ∧ es_compra row.tipo = false ∧
        es_venta row.tipo = true ∧ upperStr row.cur = A
      then (consume (-row.amount) (st.inventario A)).1 else 0)
    + rawMatched df ignorar A rest (step df ignorar st row)

/-- Ascending order on `(cripto, clave)` summary keys (the
`sort_values(["cripto", "clave"])` of source line 181). -/
def keyLe (a b : String × String) : Prop := a.1 < b.1 ∨ (a.1 = b.1 ∧ a.2 ≤ b.2)

instance : DecidableRel keyLe := fun a b =>
  inferInstanceAs (Decidable (a.1 < b.1 ∨ (a.1 = b.1 ∧ a.2 ≤ b.2)))

/-- One summary row (source lines 173-182). -/
structure Resumen where
  cripto : String
  clave : String
  valor_transm : ℚ
  coste_fifo : ℚ
  gastos : ℚ
  ganancia : ℚ
deriving DecidableEq

/-- The detail rows belonging to one `(cripto, clave)` group. -/
def groupOf (filas : List Fila) (k : String × String) : List Fila :=
  filas.filter (fun f => f.cripto == k.1 && f.clave == k.2)

/-- One summary row: the four monetary fields summed over the group. -/
def mkResumen (filas : List Fila) (k : String × String) : Resumen :=
  ⟨k.1, k.2,
    ((groupOf filas k).map Fila.valor_transm).sum,
    ((groupOf filas k).map Fila.coste_fifo).sum,
    ((groupOf filas k).map Fila.gastos).sum,
    ((groupOf filas k).map Fila.ganancia).sum⟩

/-- Source lines 173-182: group the detail rows by `(cripto, clave)`, sum
the four monetary fields, and sort the groups ascending by key. -/
def resumen (filas : List Fila) : List Resumen :=
  (List.insertionSort keyLe (filas.map (fun f => (f.cripto, f.clave))).eraseDups).map
    (mkResumen filas)

/-- The spec's end-to-end four-row ledger: acquire BTC 1 at cost 100 (t=1),
acquire BTC 1 at cost 300 (t=2), dispose BTC 1.5 for 450 under trade T1
(t=3), and a fee leg of 5 EUR under trade T1 (t=3).  Sale-side quantities
and values are negative per the source ledger convention. -/
def rowsC1 : List Row :=
  [⟨1, "Compra", 1, "BTC", 100, "A"⟩,
   ⟨2, "Compra", 1, "BTC", 300, "B"⟩,
   ⟨3, "Venta", -(3/2), "BTC", -450, "T1"⟩,
   ⟨3, "Comisión", 0, "EUR", -5, "T1"⟩]

/-- Ledger for the fee-attribution counterexample: a BTC purchase, a BTC
sale under trade T, and a fee leg of 5 recorded under the EUR ticker for the
same trade T. -/
def rows2 : List Row :=
  [⟨1, "Compra", 1, "BTC", 100, "A"⟩,
   ⟨2, "Venta", -1, "BTC", -200, "T"⟩,
   ⟨2, "Fee", 0, "EUR", -5, "T"⟩]

/-- Ledger for the fee-rounding counterexample: the fee leg of trade TB is
0.004, which rounds to 0.00 in the record. -/
def rows2b : List Row :=
  [⟨1, "Compra", 1, "BTC", 100, "A"⟩,
   ⟨2, "Venta", -1, "BTC", -200, "TB"⟩,
   ⟨2, "Fee", 0, "EUR", -(1/250), "TB"⟩]

/-- An unsorted ledger: the sale (t=2) is supplied before the purchase
(t=1). -/
def rowsU : List Row :=
  [⟨2, "Venta", -1, "BTC", -200, "S"⟩,
   ⟨1, "Compra", 1, "BTC", 100, "A"⟩]

/-- Ledger for the partial-lot split scenario: acquire (qty 2, cost 100),
then dispose qty 1. -/
def rowsL4 : List Row :=
  [⟨1, "Compra", 2, "BTC", 100, "A"⟩,
   ⟨2, "Venta", -1, "BTC", -60, "B"⟩]

/-- Ledger for the conservation counterexample: one acquisition of cost
0.006 and a full disposal of it (no oversell). -/
def rowsL5 : List Row :=
  [⟨1, "Compra", 1, "BTC", 3/500, "A"⟩,
   ⟨2, "Venta", -1, "BTC", -1, "B"⟩]

/-- Ledger with an oversold disposal: 1 BTC acquired, 2 BTC disposed. -/
def rows7 : List Row :=
  [⟨1, "Compra", 1, "BTC", 100, "A"⟩,
   ⟨2, "Venta", -2, "BTC", -500, "T"⟩]

/-- Ledger for the epsilon-drain scenario: a lot of quantity
1.0000000000001 consumed by a disposal of quantity 1. -/
def rows9 : List Row :=
  [⟨1, "Compra", 1 + 1/10 ^ 13, "BTC", 100, "A"⟩,
   ⟨2, "Venta", -1, "BTC", -200, "B"⟩]

/-- Ledger for the single-rounding-of-gain scenario: cost 5.003, gross value
10.006, no fee. -/
def rowsL10 : List Row :=
  [⟨1, "Compra", 1, "BTC", 5003/1000, "A"⟩,
   ⟨2, "Venta", -1, "BTC", -(5003/500), "B"⟩]

/-- A sale row with an empty trade id, used as the concrete step input. -/
def row0 : Row := ⟨2, "Venta", -1, "BTC", -200, ""⟩

/-- A two-row frame around `row0`: one purchase under trade A, then the
sale with empty trade id. -/
def df0 : List Row := [⟨1, "Compra", 1, "BTC", 100, "A"⟩, row0]

/-- The source's epsilon is positive. -/
theorem eps_pos : 0 < eps := by norm_num [eps]

/-- Rounding zero to two decimals gives zero. -/
theorem round2_zero : round2 0 = 0 := by decide!

/-- A lot list of positive quantities has non-negative total quantity. -/
theorem sumQty_nonneg (l : List Lot) (h : ∀ lot ∈ l, 0 < lot.1) : 0 ≤ sumQty l := by
  refine List.sum_nonneg ?_
  intro x hx
  obtain ⟨lot, hm, rfl⟩ := List.mem_map.mp hx
  exact (h lot hm).le

/-- A lot list of non-negative costs has non-negative total cost. -/
theorem sumCost_nonneg (l : List Lot) (h : ∀ lot ∈ l, 0 ≤ lot.2) : 0 ≤ sumCost l := by
  refine List.sum_nonneg ?_
  intro x hx
  obtain ⟨lot, hm, rfl⟩ := List.mem_map.mp hx
  exact h lot hm

/-- The FIFO loop conserves cost exactly: the matched cost plus the cost
left in the queue equals the cost that was in the queue. -/
theorem consume_cost_conservation (salida : ℚ) (l : List Lot) :
    (consume salida l).1 + sumCost (consume salida l).2 = sumCost l := by
  induction l generalizing salida with
  | nil => simp [consume, sumCost]
  | cons hd tl ih =>
    obtain ⟨lq, lc⟩ := hd
    by_cases h1 : eps < salida
    · by_cases h2 : lq ≤ salida + eps
      · have hrec := ih (salida - lq)
        simp only [consume, if_pos h1, if_pos h2, sumCost, List.map_cons, List.sum_cons] at *
        linarith
      · simp only [consume, if_pos h1, if_neg h2, sumCost, List.map_cons, List.sum_cons]
        ring
    · simp [consume, h1, sumCost]

/-- The FIFO loop keeps lot costs non-negative. -/
theorem consume_cost_nonneg (salida : ℚ) (l : List Lot) (h : ∀ lot ∈ l, 0 ≤ lot.2) :
    ∀ lot ∈ (consume salida l).2, 0 ≤ lot.2 := by
  induction l generalizing salida with
  | nil => simp [consume]
  | cons hd tl ih =>
    obtain ⟨lq, lc⟩ := hd
    intro lot hm
    by_cases h1 : eps < salida
    · by_cases h2 : lq ≤ salida + eps
      · simp only [consume, if_pos h1, if_pos h2] at hm
        exact ih (salida - lq) (fun x hx => h x (List.mem_cons_of_mem _ hx)) lot hm
      · simp only [consume, if_pos h1, if_neg h2] at hm
        rcases List.mem_cons.mp hm with heq | hmem
        · have hlc : 0 ≤ lc := h (lq, lc) (List.mem_cons_self _ _)
          have hlt : salida + eps < lq := lt_of_not_le h2
          have hlq : 0 < lq := by have := eps_pos; linarith
          have hfrac : salida / lq ≤ 1 := by
            rw [div_le_one hlq]
            have := eps_pos; linarith
          have : 0 ≤ lc * (1 - salida / lq) := mul_nonneg hlc (by linarith)
          rw [heq]
          exact this
        · exact h lot (List.mem_cons_of_mem _ hmem)
    · simp only [consume, if_neg h1] at hm
      exact h lot hm

/-- The FIFO loop keeps lot quantities positive: a lot consumed down to the
epsilon tolerance is removed, and a partially consumed lot keeps a positive
(indeed `> eps`) quantity. -/
theorem consume_qty_pos (salida : ℚ) (l : List Lot) (h : ∀ lot ∈ l, 0 < lot.1) :
    ∀ lot ∈ (consume salida l).2, 0 < lot.1 := by
  induction l generalizing salida with
  | nil => simp [consume]
  | cons hd tl ih =>
    obtain ⟨lq, lc⟩ := hd
    intro lot hm
    by_cases h1 : eps < salida
    · by_cases h2 : lq ≤ salida + eps
      · simp only [consume, if_pos h1, if_pos h2] at hm
        exact ih (salida - lq) (fun x hx => h x (List.mem_cons_of_mem _ hx)) lot hm
      · simp only [consume, if_pos h1, if_neg h2] at hm
        rcases List.mem_cons.mp hm with heq | hmem
        · have hlt : salida + eps < lq := lt_of_not_le h2
          have := eps_pos
          rw [heq]
          show 0 < lq - salida
          linarith
        · exact h lot (List.mem_cons_of_mem _ hmem)
    · simp only [consume, if_neg h1] at hm
      exact h lot hm

/-- When the disposal need exceeds the whole queue (beyond epsilon), the
loop drains the queue completely and matches exactly the queue's total
cost. -/
theorem consume_drain (salida : ℚ) (l : List Lot) (hq : ∀ lot ∈ l, 0 < lot.1)
    (h : sumQty l + eps ≤ salida) :
    consume salida l = (sumCost l, []) := by
  induction l generalizing salida with
  | nil => simp [consume, sumCost]
  | cons hd tl ih =>
    obtain ⟨lq, lc⟩ := hd
    have hlq : 0 < lq := hq _ (List.mem_cons_self _ _)
    have htl : 0 ≤ sumQty tl := sumQty_nonneg tl (fun x hx => hq x (List.mem_cons_of_mem _ hx))
    have hsum : sumQty ((lq, lc) :: tl) = lq + sumQty tl := by
      simp [sumQty]
    rw [hsum] at h
    have hepos := eps_pos
    have h1 : eps < salida := by linarith
    have h2 : lq ≤ salida + eps := by linarith
    have hrec := ih (salida - lq) (fun x hx => hq x (List.mem_cons_of_mem _ hx)) (by linarith)
    simp only [consume, if_pos h1, if_pos h2, hrec, sumCost, List.map_cons, List.sum_cons]

/-- The inventory after one loop iteration, at an arbitrary ticker `A`. -/
theorem step_inventario (df : List Row) (ignorar : List String) (st : St) (row : Row)
    (A : String) :
    (step df ignorar st row).inventario A =
      if upperStr row.cur ∈ ignorar then st.inventario A
      else if es_compra row.tipo then
        (if A = upperStr row.cur then st.inventario A ++ [(row.amount, row.eur)]
          else st.inventario A)
      else if es_venta row.tipo then
        (if A = upperStr row.cur then (consume (-row.amount) (st.inventario A)).2
          else st.inventario A)
      else st.inventario A := by
  by_cases hig : upperStr row.cur ∈ ignorar
  · simp [step, hig]
  · by_cases hc : es_compra row.tipo
    · by_cases hA : A = upperStr row.cur <;> simp [step, hig, hc, updInv, hA]
    · by_cases hv : es_venta row.tipo
      · by_cases hA : A = upperStr row.cur <;> simp [step, hig, hc, hv, updInv, hA]
      · simp [step, hig, hc, hv]

/-- On a sale row that is not skipped, the loop iteration appends exactly
one detail row, whose fields are the rounded raw values (source lines
156-167). -/
theorem step_venta_filas (df : List Row) (ignorar : List String) (st : St) (row : Row)
    (hig : upperStr row.cur ∉ ignorar) (hc : es_compra row.tipo = false)
    (hv : es_venta row.tipo = true) :
    (step df ignorar st row).filas = st.filas ++
      [⟨row.date, upperStr row.cur, -row.amount,
        round2 (-row.eur),
        round2 ((consume (-row.amount) (st.inventario (upperStr row.cur))).1),
        round2 (fees_for df row.trade_id),
        round2 ((-row.eur) - (consume (-row.amount) (st.inventario (upperStr row.cur))).1 -
          fees_for df row.trade_id),
        clave_for df row.trade_id⟩] := by
  simp [step, hig, hc, hv]

/-- A trade id with no linked fee rows accrues zero fee. -/
theorem fees_for_eq_zero (df : List Row) (tid : String)
    (h : ∀ r ∈ df, r.trade_id = tid → es_fee r.tipo = false) :
    fees_for df tid = 0 := by
  unfold fees_for
  have hnil : df.filter (fun r => r.trade_id == tid && es_fee r.tipo) = [] := by
    rw [List.filter_eq_nil_iff]
    intro r hr
    by_cases ht : r.trade_id = tid
    · simp [ht, h r hr ht]
    · simp [ht]
  rw [hnil]
  simp

/-- A trade id with no linked row carrying the EUR ticker classifies as
non-fiat (`"N"`). -/
theorem clave_for_eq_N (df : List Row) (tid : String)
    (h : ∀ r ∈ df, r.trade_id = tid → upperStr r.cur ≠ "EUR") :
    clave_for df tid = "N" := by
  unfold clave_for
  rw [if_neg]
  intro hany
  obtain ⟨r, hr, hbeq⟩ := List.any_eq_true.mp hany
  have hmem := List.mem_filter.mp hr
  have htid : r.trade_id = tid := by simpa using hmem.2
  exact h r hmem.1 htid (by simpa using hbeq)

/-- Each summary row's four monetary fields are the sums of the
corresponding fields over the detail rows of its `(cripto, clave)` group. -/
theorem resumen_sums (filas : List Fila) (r : Resumen) (hr : r ∈ resumen filas) :
    r.valor_transm = ((groupOf filas (r.cripto, r.clave)).map Fila.valor_transm).sum ∧
    r.coste_fifo = ((groupOf filas (r.cripto, r.clave)).map Fila.coste_fifo).sum ∧
    r.gastos = ((groupOf filas (r.cripto, r.clave)).map Fila.gastos).sum ∧
    r.ganancia = ((groupOf filas (r.cripto, r.clave)).map Fila.ganancia).sum := by
  unfold resumen at hr
  obtain ⟨k, hk, rfl⟩ := List.mem_map.mp hr
  simp [mkResumen]

/-- Main conservation induction: from a state whose lots for asset `A` all
have non-negative cost, and a row list whose acquisitions of `A` have
non-negative cost, the total unrounded matched cost for `A` is at most the
cost held in the state plus the cost of the processed acquisitions. -/
theorem rawMatched_le (df : List Row) (ignorar : List String) (A : String) (rows : List Row) :
    ∀ st : St, (∀ lot ∈ st.inventario A, 0 ≤ lot.2) →
      (∀ r ∈ rows, es_compra r.tipo = true → upperStr r.cur = A → 0 ≤ r.eur) →
      rawMatched df ignorar A rows st ≤
        sumCost (st.inventario A) + acquiredCost ignorar A rows := by
  induction rows with
  | nil =>
    intro st hst _
    have := sumCost_nonneg (st.inventario A) hst
    simp only [rawMatched, acquiredCost]
    linarith
  | cons row rest ih =>
    intro st hst hrows
    have hrest : ∀ r ∈ rest, es_compra r.tipo = true → upperStr r.cur = A → 0 ≤ r.eur :=
      fun r hr => hrows r (List.mem_cons_of_mem _ hr)
    simp only [rawMatched, acquiredCost]
    by_cases hig : upperStr row.cur ∈ ignorar
    · have hinv : (step df ignorar st row).inventario A = st.inventario A := by
        rw [step_inventario]
        simp [hig]
      have hih := ih (step df ignorar st row) (by rw [hinv]; exact hst) hrest
      rw [hinv] at hih
      rw [if_neg (by simp [hig]), if_neg (by simp [hig])]
      linarith
    · by_cases hcom : es_compra row.tipo
      · by_cases hA : upperStr row.cur = A
        · have hinv : (step df ignorar st row).inventario A
              = st.inventario A ++ [(row.amount, row.eur)] := by
            rw [step_inventario, if_neg hig]
            simp [hcom, hA]
          have heur : 0 ≤ row.eur := hrows row (List.mem_cons_self _ _) hcom hA
          have hst2 : ∀ lot ∈ st.inventario A ++ [(row.amount, row.eur)], 0 ≤ lot.2 := by
            intro lot hm
            rcases List.mem_append.mp hm with hm1 | hm2
            · exact hst lot hm1
            · simp only [List.mem_singleton] at hm2
              rw [hm2]
              exact heur
          have hih := ih (step df ignorar st row) (by rw [hinv]; exact hst2) hrest
          rw [hinv] at hih
          have hsum : sumCost (st.inventario A ++ [(row.amount, row.eur)])
              = sumCost (st.inventario A) + row.eur := by
            simp [sumCost]
          rw [hsum] at hih
          rw [if_neg (by simp [hcom]), if_pos ⟨hig, hcom, hA⟩]
          linarith
        · have hinv : (step df ignorar st row).inventario A = st.inventario A := by
            rw [step_inventario, if_neg hig]
            simp [hcom, Ne.symm hA]
          have hih := ih (step df ignorar st row) (by rw [hinv]; exact hst) hrest
          rw [hinv] at hih
          rw [if_neg (by simp [hcom]), if_neg (by simp [hA])]
          linarith
      · have hcomf : es_compra row.tipo = false := by simpa using hcom
        by_cases hven : es_venta row.tipo
        · by_cases hA : upperStr row.cur = A
          · have hinv : (step df ignorar st row).inventario A
                = (consume (-row.amount) (st.inventario A)).2 := by
              rw [step_inventario, if_neg hig]
              simp [hcomf, hven, hA]
            have hnn := consume_cost_nonneg (-row.amount) (st.inventario A) hst
            have hcons := consume_cost_conservation (-row.amount) (st.inventario A)
            have hih := ih (step df ignorar st row) (by rw [hinv]; exact hnn) hrest
            rw [hinv] at hih
            rw [if_pos ⟨hig, hcomf, hven, hA⟩, if_neg (by simp [hcomf])]
            linarith
          · have hinv : (step df ignorar st row).inventario A = st.inventario A := by
              rw [step_inventario, if_neg hig]
              simp [hcomf, hven, Ne.symm hA]
            have hih := ih (step df ignorar st row) (by rw [hinv]; exact hst) hrest
            rw [hinv] at hih
            rw [if_neg (by simp [hA]), if_neg (by simp [hcomf])]
            linarith
        · have hvenf : es_venta row.tipo = false := by simpa using hven
          have hinv : (step df ignorar st row).inventario A = st.inventario A := by
            rw [step_inventario, if_neg hig]
            simp [hcomf, hvenf]
          have hih := ih (step df ignorar st row) (by rw [hinv]; exact hst) hrest
          rw [hinv] at hih
          rw [if_neg (by simp [hvenf]), if_neg (by simp [hcomf])]
          linarith

/-- Main positivity induction: starting from a state whose lots all have
positive quantity, folding the loop over rows whose acquisitions have
positive quantity keeps every lot's quantity positive. -/
theorem foldl_qty_pos (df : List Row) (ignorar : List String) (rows : List Row) :
    ∀ st : St, (∀ B : String, ∀ lot ∈ st.inventario B, 0 < lot.1) →
      (∀ r ∈ rows, es_compra r.tipo = true → 0 < r.amount) →
      ∀ B : String, ∀ lot ∈ (rows.foldl (step df ignorar) st).inventario B, 0 < lot.1 := by
  induction rows with
  | nil =>
    intro st hst _ B
    exact hst B
  | cons row rest ih =>
    intro st hst hrows B
    have hpres : ∀ C : String, ∀ lot ∈ (step df ignorar st row).inventario C, 0 < lot.1 := by
      intro C lot hm
      rw [step_inventario] at hm
      by_cases hig : upperStr row.cur ∈ ignorar
      · rw [if_pos hig] at hm
        exact hst C lot hm
      · rw [if_neg hig] at hm
        by_cases hcom : es_compra row.tipo
        · rw [if_pos hcom] at hm
          by_cases hC : C = upperStr row.cur
          · rw [if_pos hC] at hm
            rcases List.mem_append.mp hm with hm1 | hm2
            · exact hst C lot hm1
            · simp only [List.mem_singleton] at hm2
              rw [hm2]
              exact hrows row (List.mem_cons_self _ _) hcom
          · rw [if_neg hC] at hm
            exact hst C lot hm
        · rw [if_neg hcom] at hm
          by_cases hven : es_venta row.tipo
          · rw [if_pos hven] at hm
            by_cases hC : C = upperStr row.cur
            · rw [if_pos hC] at hm
              exact consume_qty_pos _ _ (hst C) lot hm
            · rw [if_neg hC] at hm
              exact hst C lot hm
          · rw [if_neg hven] at hm
            exact hst C lot hm
    simp only [List.foldl_cons]
    exact ih (step df ignorar st row) hpres (fun r hr => hrows r (List.mem_cons_of_mem _ hr)) B

/-- Claim C1: running the engine on the four-row ledger (acquire BTC 1 at
100, acquire BTC 1 at 300, dispose BTC 1.5 for 450 under trade T1, fee 5
under trade T1) produces exactly one disposal record with matched cost 250,
fee 5 and gain 195, and leaves the BTC inventory holding exactly the
residual lot (quantity 0.5, cost 150). -/
theorem C1_end_to_end_scenario :
    (fifo_ct rowsC1 ["EUR"] none).filas =
      [⟨3, "BTC", 3 / 2, 450, 250, 5, 195, "F"⟩] ∧
    (fifo_ct rowsC1 ["EUR"] none).inventario "BTC" = [(1 / 2, 150)] := by
  decide!

/-- Claim C2, counterexample: with the single-asset filter active
(`--crypto BTC`), the fee leg of trade T recorded under the EUR ticker is
filtered out of the frame before the fee lookup, so the disposal record's
fee is 0 although the sum of absolute fee values over all ledger rows
sharing trade T is 5.  Moreover even without the filter the recorded fee is
the 2-decimal rounding of that sum, not the sum itself: a fee of 0.004
(trade TB) is recorded as 0. -/
theorem C2_fee_filter_counterexample :
    ((fifo_ct rows2 [] (some "BTC")).filas.map Fila.gastos = [0] ∧
      fees_for rows2 "T" = 5 ∧ (0 : ℚ) ≠ 5) ∧
    ((fifo_ct rows2b [] none).filas.map Fila.gastos = [0] ∧
      fees_for rows2b "TB" = 1 / 250 ∧ (0 : ℚ) ≠ 1 / 250) := by
  decide!

/-- Claim C2, amended: every disposal record's fee field equals the
2-decimal rounding of the sum of absolute monetary values of the rows of
the processed frame (the ledger after the optional single-asset filter)
that share its trade id and classify as Fee; when the filter is active, fee
legs recorded under other tickers are excluded; when no such rows exist
that sum is empty, hence zero. -/
theorem C2_fee_from_processed_frame (rows : List Row) (ignorar : List String)
    (solo : Option String) (st : St) (row : Row)
    (hig : upperStr row.cur ∉ ignorar) (hc : es_compra row.tipo = false)
    (hv : es_venta row.tipo = true) :
    (∃ f, (step (procFrame solo rows) ignorar st row).filas = st.filas ++ [f] ∧
        f.gastos = round2 (fees_for (procFrame solo rows) row.trade_id)) ∧
    fees_for (procFrame solo rows) row.trade_id =
      (((procFrame solo rows).filter
          (fun r => r.trade_id == row.trade_id && es_fee r.tipo)).map
        (fun r => |r.eur|)).sum ∧
    fifo_core rows ignorar solo =
      fifoLoop (procFrame solo rows) ignorar (procFrame solo rows) := by
  exact ⟨⟨_, step_venta_filas _ _ _ _ hig hc hv, rfl⟩, rfl, rfl⟩

/-- Witness for C2: the amended statement instantiated on the concrete
filtered ledger `rows2` at its sale row. -/
theorem C2_fee_from_processed_frame_witness :
    ∃ f, (step (procFrame (some "BTC") rows2) [] initSt row0).filas =
        initSt.filas ++ [f] ∧
      f.gastos = round2 (fees_for (procFrame (some "BTC") rows2) row0.trade_id) :=
  (C2_fee_from_processed_frame rows2 [] (some "BTC") initSt row0
    (by decide!) (by decide!) (by decide!)).1

/-- Claim C3, counterexample: on the unsorted ledger `rowsU` (sale at t=2
supplied before purchase at t=1) the engine's output differs from the
result of processing the rows in the supplied order — the engine repairs
the order by sorting, matching the sale against the later-supplied
purchase. -/
theorem C3_sort_counterexample :
    (fifo_ct rowsU [] none).filas.map Fila.coste_fifo = [100] ∧
    (fifo_core rowsU [] none).filas.map Fila.coste_fifo = [0] ∧
    (fifo_ct rowsU [] none).filas ≠ (fifo_core rowsU [] none).filas := by
  decide!

/-- Claim C3, amended: the engine sorts its input ascending by timestamp
(source line 103) before processing, so its output equals the result of
processing the date-sorted sequence; input already sorted ascending by
timestamp is processed in exactly the supplied order. -/
theorem C3_engine_sorts :
    (∀ (rows : List Row) (ignorar : List String) (solo : Option String),
        fifo_ct rows ignorar solo =
          fifo_core (List.insertionSort dateLe rows) ignorar solo) ∧
    (∀ (rows : List Row) (ignorar : List String) (solo : Option String),
        List.Sorted dateLe rows →
        fifo_ct rows ignorar solo = fifo_core rows ignorar solo) := by
  constructor
  · intro rows ignorar solo
    rfl
  · intro rows ignorar solo h
    unfold fifo_ct
    rw [List.Sorted.insertionSort_eq h]

/-- Witness for C3: the amended statement instantiated on the date-sorted
four-row ledger. -/
theorem C3_engine_sorts_witness :
    fifo_ct rowsC1 ["EUR"] none = fifo_core rowsC1 ["EUR"] none :=
  C3_engine_sorts.2 rowsC1 ["EUR"] none (by decide)

/-- Claim C4: when the remaining needed quantity is positive (beyond
epsilon) and smaller than the front lot's quantity (beyond epsilon), the
loop adds exactly the fraction `salida / lot_qty` of the lot's cost to the
matched cost and leaves the lot in place with quantity and cost reduced by
that same fraction; in particular acquisition (qty 2, cost 100) followed by
a disposal of qty 1 yields matched cost 50 and residual lot (1, 50). -/
theorem C4_partial_lot_split :
    (∀ (salida lot_qty lot_coste : ℚ) (rest : List Lot),
        eps < salida → salida + eps < lot_qty →
        consume salida ((lot_qty, lot_coste) :: rest) =
          (lot_coste * (salida / lot_qty),
            (lot_qty - salida, lot_coste * (1 - salida / lot_qty)) :: rest) ∧
        lot_qty - salida = lot_qty * (1 - salida / lot_qty)) ∧
    ((fifo_core rowsL4 [] none).filas.map Fila.coste_fifo = [50] ∧
      (fifo_core rowsL4 [] none).inventario "BTC" = [(1, 50)]) := by
  constructor
  · intro salida lq lc rest h1 h2
    have hlq : lq ≠ 0 := by
      have := eps_pos
      have : 0 < lq := by linarith
      exact ne_of_gt this
    constructor
    · simp only [consume, if_pos h1, if_neg (not_le.mpr h2)]
    · field_simp
  · exact ⟨by decide!, by decide!⟩

/-- Witness for C4: the partial-split branch instantiated on the lot
(qty 2, cost 100) against a need of 1. -/
theorem C4_partial_lot_split_witness :
    consume 1 [((2 : ℚ), (100 : ℚ))] =
      (100 * (1 / 2), [(2 - 1, 100 * (1 - 1 / 2))]) ∧
    (2 : ℚ) - 1 = 2 * (1 - 1 / 2) :=
  C4_partial_lot_split.1 1 2 100 [] (by decide!) (by decide!)

/-- Claim C5, counterexample: on the ledger `rowsL5` (acquire 1 BTC at
cost 0.006, dispose it entirely — no oversell), the single disposal
record's matched cost is the 2-decimal rounding 0.01, so the sum of
`coste_fifo` over the emitted records (0.01) exceeds the total acquisition
cost (0.006). -/
theorem C5_rounded_conservation_counterexample :
    ((fifo_core rowsL5 [] none).filas.map Fila.coste_fifo).sum = 1 / 100 ∧
    acquiredCost [] "BTC" rowsL5 = 3 / 500 ∧
    ¬ ((fifo_core rowsL5 [] none).filas.map Fila.coste_fifo).sum ≤
        acquiredCost [] "BTC" rowsL5 := by
  decide!

/-- Claim C5, amended: for every asset whose processed acquisition rows all
have non-negative recorded cost, the run's total unrounded matched cost
basis (the `coste_fifo` values before 2-decimal rounding, accumulated by
`rawMatched` along the very same engine states) never exceeds the total
cost of that asset's processed acquisition rows — oversold or not. -/
theorem C5_unrounded_conservation (df : List Row) (ignorar : List String) (A : String)
    (rows : List Row)
    (h : ∀ r ∈ rows, es_compra r.tipo = true → upperStr r.cur = A → 0 ≤ r.eur) :
    rawMatched df ignorar A rows initSt ≤ acquiredCost ignorar A rows := by
  have hmain := rawMatched_le df ignorar A rows initSt (by intro lot hm; simp [initSt] at hm) h
  simpa [initSt, sumCost] using hmain

/-- Witness for C5: the amended conservation statement instantiated on the
four-row end-to-end ledger (matched 250 against acquired 400). -/
theorem C5_unrounded_conservation_witness :
    rawMatched rowsC1 ["EUR"] "BTC" rowsC1 initSt ≤ acquiredCost ["EUR"] "BTC" rowsC1 :=
  C5_unrounded_conservation rowsC1 ["EUR"] "BTC" rowsC1 (by decide!)

/-- Claim C6: under the precondition that every acquisition row has
positive quantity, every lot present in the inventory after folding the
loop over any row sequence (hence at every point of a run, every prefix
being such a sequence) has positive quantity: a lot consumed down to zero
within the 1e-12 tolerance is removed in the same consume step. -/
theorem C6_inventory_quantities_positive (df : List Row) (ignorar : List String)
    (rows : List Row) (A : String)
    (h : ∀ r ∈ rows, es_compra r.tipo = true → 0 < r.amount) :
    ∀ lot ∈ (fifoLoop df ignorar rows).inventario A, 0 < lot.1 := by
  have := foldl_qty_pos df ignorar rows initSt
    (by intro B lot hm; simp [initSt] at hm) h A
  simpa [fifoLoop] using this

/-- Witness for C6: the invariant instantiated on the end-to-end ledger's
residual lot (quantity 1/2). -/
theorem C6_inventory_quantities_positive_witness :
    ((1 / 2 : ℚ), (150 : ℚ)) ∈ (fifoLoop rowsC1 ["EUR"] rowsC1).inventario "BTC" ∧
    (0 : ℚ) < (((1 / 2 : ℚ), (150 : ℚ)) : Lot).1 :=
  ⟨by decide!,
    C6_inventory_quantities_positive rowsC1 ["EUR"] rowsC1 "BTC" (by decide!)
      ((1 / 2 : ℚ), (150 : ℚ)) (by decide!)⟩

/-- Claim C7: a disposal whose needed quantity exceeds the whole inventory
(beyond epsilon) raises no error: the queue is drained, the matched portion
is costed at exactly the queue's total cost, the unmatched remainder adds
zero cost, and on the concrete oversold ledger `rows7` (1 BTC acquired,
2 disposed) a disposal record is still emitted with matched cost 100. -/
theorem C7_oversold_degrades_silently :
    (∀ (salida : ℚ) (l : List Lot), (∀ lot ∈ l, 0 < lot.1) →
        sumQty l + eps ≤ salida → consume salida l = (sumCost l, [])) ∧
    ((fifo_ct rows7 [] none).filas = [⟨2, "BTC", 2, 500, 100, 0, 400, "N"⟩] ∧
      (fifo_ct rows7 [] none).inventario "BTC" = []) := by
  exact ⟨fun salida l hq h => consume_drain salida l hq h, by decide!, by decide!⟩

/-- Witness for C7: draining the single lot (qty 1, cost 100) against an
oversold need of 2. -/
theorem C7_oversold_degrades_silently_witness :
    consume 2 [((1 : ℚ), (100 : ℚ))] = (sumCost [((1 : ℚ), (100 : ℚ))], []) :=
  C7_oversold_degrades_silently.1 2 [(1, 100)] (by decide!) (by decide!)

/-- Claim C8: a sale row whose trade id matches no row classified as Fee
and no row carrying the EUR ticker yields a disposal record with fee 0 and
counter-class "N" — in particular an empty trade id shared with no fee/EUR
rows degrades to no fee, non-fiat. -/
theorem C8_unlinked_trade_defaults (df : List Row) (ignorar : List String) (st : St)
    (row : Row)
    (hig : upperStr row.cur ∉ ignorar) (hc : es_compra row.tipo = false)
    (hv : es_venta row.tipo = true)
    (hfee : ∀ r ∈ df, r.trade_id = row.trade_id → es_fee r.tipo = false)
    (heur : ∀ r ∈ df, r.trade_id = row.trade_id → upperStr r.cur ≠ "EUR") :
    ∃ f, (step df ignorar st row).filas = st.filas ++ [f] ∧
      f.gastos = 0 ∧ f.clave = "N" := by
  refine ⟨_, step_venta_filas df ignorar st row hig hc hv, ?_, ?_⟩
  · show round2 (fees_for df row.trade_id) = 0
    rw [fees_for_eq_zero df row.trade_id hfee]
    exact round2_zero
  · show clave_for df row.trade_id = "N"
    exact clave_for_eq_N df row.trade_id heur

/-- Witness for C8: the defaults on the concrete frame `df0` at the sale
row with empty trade id. -/
theorem C8_unlinked_trade_defaults_witness :
    ∃ f, (step df0 [] initSt row0).filas = initSt.filas ++ [f] ∧
      f.gastos = 0 ∧ f.clave = "N" :=
  C8_unlinked_trade_defaults df0 [] initSt row0
    (by decide!) (by decide!) (by decide!) (by decide!) (by decide!)

/-- Claim C9: consuming a lot of quantity 1.0000000000001 against a need of
1.0 fully drains the lot (the whole cost is matched, no remnant stays), the
loop terminates, and the same holds inside a full engine run. -/
theorem C9_epsilon_drain :
    consume 1 [(1 + 1 / 10 ^ 13, 100)] = (100, []) ∧
    (fifo_ct rows9 [] none).filas.map Fila.coste_fifo = [100] ∧
    (fifo_ct rows9 [] none).inventario "BTC" = [] := by
  decide!

/-- Claim C10: every emitted disposal record carries the 2-decimal rounding
of its four raw monetary values, with the gain being the single rounding of
the exact raw difference (value − cost − fee, computed unrounded); on the
concrete ledger `rowsL10` the gain field (5.00) differs from value − cost −
fee recomputed over the record's own rounded fields (5.01); and every
summary row sums exactly these rounded per-record fields of its group. -/
theorem C10_rounding_discipline :
    (∀ (df : List Row) (ignorar : List String) (st : St) (row : Row),
        upperStr row.cur ∉ ignorar → es_compra row.tipo = false →
        es_venta row.tipo = true →
        ∃ f, (step df ignorar st row).filas = st.filas ++ [f] ∧
          f.valor_transm = round2 (-row.eur) ∧
          f.coste_fifo =
            round2 ((consume (-row.amount) (st.inventario (upperStr row.cur))).1) ∧
          f.gastos = round2 (fees_for df row.trade_id) ∧
          f.ganancia = round2 ((-row.eur) -
            (consume (-row.amount) (st.inventario (upperStr row.cur))).1 -
            fees_for df row.trade_id)) ∧
    ((fifo_core rowsL10 [] none).filas.map
        (fun f => (f.ganancia, f.valor_transm - f.coste_fifo - f.gastos)) =
      [(5, 501 / 100)] ∧ (5 : ℚ) ≠ 501 / 100) ∧
    (∀ (filas : List Fila) (r : Resumen), r ∈ resumen filas →
        r.valor_transm = ((groupOf filas (r.cripto, r.clave)).map Fila.valor_transm).sum ∧
        r.coste_fifo = ((groupOf filas (r.cripto, r.clave)).map Fila.coste_fifo).sum ∧
        r.gastos = ((groupOf filas (r.cripto, r.clave)).map Fila.gastos).sum ∧
        r.ganancia = ((groupOf filas (r.cripto, r.clave)).map Fila.ganancia).sum) := by
  refine ⟨?_, by decide!, fun filas r hr => resumen_sums filas r hr⟩
  intro df ignorar st row hig hc hv
  exact ⟨_, step_venta_filas df ignorar st row hig hc hv, rfl, rfl, rfl, rfl⟩

/-- Witness for C10: the field characterisation instantiated on the
concrete frame `df0` at its sale row. -/
theorem C10_rounding_discipline_witness :
    ∃ f, (step df0 [] initSt row0).filas = initSt.filas ++ [f] ∧
      f.valor_transm = round2 (-row0.eur) ∧
      f.coste_fifo =
        round2 ((consume (-row0.amount) (initSt.inventario (upperStr row0.cur))).1) ∧
      f.gastos = round2 (fees_for df0 row0.trade_id) ∧
      f.ganancia = round2 ((-row0.eur) -
        (consume (-row0.amount) (initSt.inventario (upperStr row0.cur))).1 -
        fees_for df0 row0.trade_id) :=
  C10_rounding_discipline.1 df0 [] initSt row0 (by decide!) (by decide!) (by decide!)

end FifoCT
